import Mathlib

/-!
# Verification of the stock-analysis scoring engine

Shallow embedding of the multi-factor scoring engine of
`src/analyzer.py` and its configuration `src/config.py`.

Modelling conventions:
* Python/numpy floats are modelled by `ℚ` (exact arithmetic); the
  Bollinger-band width, which takes a real square root, is modelled in `ℝ`.
* numpy arrays become `List ℚ`; negative indexing `a[-k]` becomes
  `l.getD (l.length - k) 0`; the junk default is only reachable where the
  Python code would itself fault or produce garbage on out-of-range access.
* Python dicts of optional numeric fields become association lists
  `List (String × ℚ)`; `d.get(k, v)` becomes `(l.lookup k).getD v`.
* The one numerically-unguarded division of the indicator library (the
  VWAP volume-weighted average) is modelled with `Option ℚ`, `none`
  standing for the NaN/inf that numpy produces on a zero volume sum.
  Elsewhere division is total `ℚ` division (`x / 0 = 0`); each such spot
  is either guarded in the source or unreachable from validated inputs.
-/

/-- Python `sorted` on floats, ascending and stable. -/
def pySorted (l : List ℚ) : List ℚ := l.insertionSort (· ≤ ·)

/-- numpy `np.mean` (junk value 0 on the empty list, where numpy gives NaN;
every use below is guarded by a length check in the source). -/
def npMean (l : List ℚ) : ℚ := l.sum / l.length

/-- numpy `np.clip x lo hi`. -/
def npClip (x lo hi : ℚ) : ℚ := min (max x lo) hi

/-- Python slice `l[-k:]` (trailing `k` elements). -/
def lastN (k : ℕ) (l : List ℚ) : List ℚ := l.drop (l.length - k)

/-- Python `l[-k]` on a nonempty-enough list. -/
def idxNeg (l : List ℚ) (k : ℕ) : ℚ := l.getD (l.length - k) 0

/-- numpy maximum of a list (junk 0 on empty, matching no reachable call). -/
def npMax (l : List ℚ) : ℚ :=
  match l with
  | [] => 0
  | x :: xs => xs.foldl max x

/-- numpy minimum of a list. -/
def npMin (l : List ℚ) : ℚ :=
  match l with
  | [] => 0
  | x :: xs => xs.foldl min x

/-- numpy `np.diff`: consecutive differences `l[i+1] - l[i]`. -/
def npDiff (l : List ℚ) : List ℚ := List.zipWith (fun b a => b - a) l.tail l

/-- First index of the maximum, as `np.argmax` (index 0 on empty input). -/
def argmaxAux : ℕ → ℕ → ℚ → List ℚ → ℕ
  | _, bi, _, [] => bi
  | i, bi, bv, x :: xs =>
    if bv < x then argmaxAux (i + 1) i x xs else argmaxAux (i + 1) bi bv xs

/-- Embeds `np.argmax` over a list of rationals. -/
def argmax : List ℚ → ℕ
  | [] => 0
  | x :: xs => argmaxAux 1 0 x xs

/-- First index of the minimum, as `np.argmin`. -/
def argminAux : ℕ → ℕ → ℚ → List ℚ → ℕ
  | _, bi, _, [] => bi
  | i, bi, bv, x :: xs =>
    if x < bv then argminAux (i + 1) i x xs else argminAux (i + 1) bi bv xs

/-- Embeds `np.argmin` over a list of rationals. -/
def argmin : List ℚ → ℕ
  | [] => 0
  | x :: xs => argminAux 1 0 x xs

/-!
## Percentile Normalizer (`StockAnalyzer._to_percentile`)

The source sorts the reference ladder, returns 0 below the first anchor and
100 above the last, and otherwise scans consecutive anchor pairs for the
first that brackets the value, interpolating linearly between the pair's
percentile positions; an unreachable fall-through returns the neutral 50.
-/

/-- Linear interpolation between the percentile positions of anchor pair
`i, i+1` of an `n`-anchor ladder: the body of the bracketing branch of
`_to_percentile`. -/
def interpPair (n i : ℕ) (a b v : ℚ) : ℚ :=
  (i : ℚ) / ((n : ℚ) - 1) * 100 +
    (((i : ℚ) + 1) / ((n : ℚ) - 1) * 100 - (i : ℚ) / ((n : ℚ) - 1) * 100) *
      ((v - a) / (b - a))

/-- The bracketing-pair scan of `_to_percentile`: try consecutive pairs in
order, interpolate at the first pair that contains `value`, and fall back
to the neutral 50 when no pair brackets. -/
def scanRefs (v : ℚ) (n : ℕ) : ℕ → List ℚ → ℚ
  | _, [] => 50
  | _, [_] => 50
  | i, a :: b :: rest =>
    if a ≤ v ∧ v ≤ b then interpPair n i a b v
    else scanRefs v n (i + 1) (b :: rest)

/-- Embeds `_to_percentile` after the ladder has been sorted.  On the empty ladder
the Python code would fault on `reference_points[0]`; no call site passes
fewer than 8 anchors, and the junk value 50 marks that unreachable case. -/
def pctCore (v : ℚ) (l : List ℚ) : ℚ :=
  match l with
  | [] => 50
  | r0 :: rs =>
    if v ≤ r0 then 0
    else if (r0 :: rs).getLast (List.cons_ne_nil r0 rs) ≤ v then 100
    else scanRefs v (r0 :: rs).length 0 (r0 :: rs)

/-- Embeds `StockAnalyzer._to_percentile value reference_points`. -/
def toPercentile (v : ℚ) (refs : List ℚ) : ℚ := pctCore v (pySorted refs)

/-!
## Indicator Library
-/

/-- Tail of `StockAnalyzer._calculate_ema`: `ema[i] = (x - ema[i-1])*mult + ema[i-1]`. -/
def emaLoop (mult : ℚ) : ℚ → List ℚ → List ℚ
  | _, [] => []
  | prev, x :: xs =>
    let e := (x - prev) * mult + prev
    e :: emaLoop mult e xs

/-- Embeds `StockAnalyzer._calculate_ema`: empty below `period` bars, otherwise the
series seeded with the SMA of the first `period` bars. -/
def calcEma (l : List ℚ) (period : ℕ) : List ℚ :=
  if l.length < period then []
  else
    let mult : ℚ := 2 / ((period : ℚ) + 1)
    let e0 := npMean (l.take period)
    e0 :: emaLoop mult e0 (l.drop period)

/-- Wilder smoothing loop of `StockAnalyzer._calculate_rsi`; emits 100 when
the running average loss is zero (the division-by-zero guard). -/
def rsiLoop (period : ℕ) : ℚ → ℚ → List (ℚ × ℚ) → List ℚ
  | _, _, [] => []
  | ag, al, p :: rest =>
    let ag2 := (ag * ((period : ℚ) - 1) + p.1) / (period : ℚ)
    let al2 := (al * ((period : ℚ) - 1) + p.2) / (period : ℚ)
    (if al2 = 0 then 100 else 100 - 100 / (1 + ag2 / al2)) :: rsiLoop period ag2 al2 rest

/-- Embeds `StockAnalyzer._calculate_rsi`.  The source preallocates `np.zeros`,
sets the first `period` slots to 50 and writes smoothed values from slot
`period+1` on, so slot `period` keeps its initial 0. -/
def calcRsi (closes : List ℚ) (period : ℕ) : List ℚ :=
  if closes.length < period + 1 then [50]
  else
    let deltas := npDiff closes
    let gains := deltas.map (fun d => if 0 < d then d else 0)
    let losses := deltas.map (fun d => if d < 0 then -d else 0)
    let avgGain := npMean (gains.take period)
    let avgLoss := npMean (losses.take period)
    List.replicate period 50 ++
      0 :: rsiLoop period avgGain avgLoss ((gains.drop period).zip (losses.drop period))

/-- Wilder smoothing loop of `StockAnalyzer._calculate_atr`. -/
def atrLoop (period : ℕ) : ℚ → List ℚ → List ℚ
  | _, [] => []
  | a, t :: rest =>
    let a2 := (a * ((period : ℚ) - 1) + t) / (period : ℚ)
    a2 :: atrLoop period a2 rest

/-- Embeds `StockAnalyzer._calculate_atr`: true range from shifted highs/lows
against previous closes, then Wilder smoothing seeded with the SMA. -/
def calcAtr (highs lows closes : List ℚ) (period : ℕ) : List ℚ :=
  if closes.length < period + 1 then []
  else
    let tr := List.zipWith (fun hl c => max (hl.1 - hl.2) (max |hl.1 - c| |hl.2 - c|))
      (highs.tail.zip lows.tail) closes
    let a0 := npMean (tr.take period)
    a0 :: atrLoop period a0 (tr.drop period)

/-- Embeds `StockAnalyzer._calculate_vwap`: typical price weighted by volume over
the trailing 20 bars.  The volume-sum division carries NO zero guard in the
source; `none` models the NaN/inf that numpy produces when the trailing
volume sum is zero. -/
def calcVwap (highs lows closes volumes : List ℚ) : Option ℚ :=
  let p := min 20 closes.length
  let tp := List.zipWith (fun hl c => (hl.1 + hl.2 + c) / 3)
    ((lastN p highs).zip (lastN p lows)) (lastN p closes)
  let vs := lastN p volumes
  if vs.sum = 0 then none
  else some ((List.zipWith (· * ·) tp vs).sum / vs.sum)

/-- numpy population variance `np.std(l)^2`. -/
def npVar (l : List ℚ) : ℚ := npMean (l.map (fun x => (x - npMean l) ^ 2))

/-- numpy population standard deviation `np.std`; the square root forces ℝ. -/
noncomputable def npStd (l : List ℚ) : ℝ := Real.sqrt (npVar l)

/-- One window of `StockAnalyzer._calculate_bb_width`: Bollinger width as a
percentage of the window SMA, short-circuiting to 0 unless the SMA is
positive (the division-by-zero guard of the source). -/
noncomputable def bbWidthEntry (window : List ℚ) (numStd : ℚ) : ℝ :=
  let sma := npMean window
  if 0 < sma then
    let upper : ℝ := (sma : ℝ) + npStd window * (numStd : ℝ)
    let lower : ℝ := (sma : ℝ) - npStd window * (numStd : ℝ)
    (upper - lower) / (sma : ℝ) * 100
  else 0

/-- Embeds `StockAnalyzer._calculate_bb_width`: one entry per full window. -/
noncomputable def calcBbWidth (closes : List ℚ) (period : ℕ) (numStd : ℚ) : List ℝ :=
  if closes.length < period then []
  else (List.range (closes.length - period + 1)).map
    (fun j => bbWidthEntry ((closes.drop j).take period) numStd)

/-!
## Pattern Detectors
-/

/-- Embeds `StockAnalyzer._detect_rsi_divergence`: ternary divergence signal over
the last 10 bars (100 bullish, 0 bearish, 50 none).  `argmin`/`argmax`
return the first index of the extremum, as numpy does. -/
def detectRsiDivergence (closes rsi : List ℚ) : ℚ :=
  if closes.length < 20 ∨ rsi.length < 20 then 50
  else
    let rc := lastN 10 closes
    let rr := lastN 10 rsi
    let priceHighIdx := argmax rc
    let rsiHighIdx := argmax rr
    let priceLowIdx := argmin rc
    let rsiLowIdx := argmin rr
    let lastC := rc.getD (rc.length - 1) 0
    let lastR := rr.getD (rr.length - 1) 0
    if 5 < priceLowIdx ∧ rc.getD priceLowIdx 0 < lastC ∧ rr.getD rsiLowIdx 0 < lastR then 100
    else if 5 < priceHighIdx ∧ lastC < rc.getD priceHighIdx 0 ∧ lastR < rr.getD rsiHighIdx 0 then 0
    else 50

/-- Embeds `StockAnalyzer._calculate_ma_stack`: 100 for a bullish EMA stack, 0 for
a bearish one, 50 otherwise. -/
def calculateMaStack (price e20 e50 e200 : ℚ) : ℚ :=
  if e20 < price ∧ e50 < e20 ∧ e200 < e50 then 100
  else if price < e20 ∧ e20 < e50 ∧ e50 < e200 then 0
  else 50

/-- Embeds `StockAnalyzer._calculate_breakout_proximity`. -/
def calculateBreakoutProximity (closes highs lows : List ℚ) (period : ℕ) : ℚ :=
  if closes.length < period then 0
  else
    let recentHigh := npMax (lastN period highs)
    let recentLow := npMin (lastN period lows)
    let c := idxNeg closes 1
    let rangeSize := recentHigh - recentLow
    if rangeSize = 0 then 0
    else
      let dh := (recentHigh - c) / rangeSize * 100
      let dl := (c - recentLow) / rangeSize * 100
      if dh < dl then 100 - dh else -(100 - dl)

/-!
## News, sentiment and catalyst (`calculate_catalyst_score` and helpers)

Articles are modelled by their `title` and `text` strings; the integer
`nextEarningsInDays` of a profile models `_days_until(next_earnings_date)`
(`none` when the profile has no earnings date, `some 999` when the source
fails to parse the date string).  Real-time date parsing itself lives
outside the embedding.
-/

/-- A news article (`{'title': ..., 'text': ...}`). -/
structure Article where
  title : String
  text : String

/-- Python `str.lower()` (the keyword lists are ASCII), as a character
list so every string operation stays structurally computable. -/
def lowerChars (s : String) : List Char := s.data.map Char.toLower

/-- The lowercased `title + ' ' + text` the source matches keywords in. -/
def articleText (a : Article) : List Char := lowerChars (a.title ++ " " ++ a.text)

/-- Does `n` start the character list? (helper for the Python `in` test). -/
def startsWithChars : List Char → List Char → Bool
  | [], _ => true
  | _ :: _, [] => false
  | a :: as, b :: bs => a == b && startsWithChars as bs

/-- Python `needle in hay` substring occurrence, on character lists. -/
def containsChars (n : List Char) : List Char → Bool
  | [] => n.isEmpty
  | b :: bs => startsWithChars n (b :: bs) || containsChars n bs

/-- The list `ANALYSIS_CONFIG['catalyst']['sentiment_keywords']['positive']`. -/
def positiveKeywords : List String :=
  ["beat", "exceed", "strong", "growth", "upgrade",
   "breakthrough", "record", "surge", "rally", "momentum",
   "bullish", "outperform", "expansion", "innovation",
   "partnership", "acquisition", "approved", "launched"]

/-- The list `ANALYSIS_CONFIG['catalyst']['sentiment_keywords']['negative']`. -/
def negativeKeywords : List String :=
  ["miss", "weak", "decline", "downgrade", "concern",
   "investigation", "probe", "lawsuit", "recall", "cut",
   "bearish", "underperform", "loss", "delay", "suspended",
   "warning", "restructuring", "bankruptcy"]

/-- The list `ANALYSIS_CONFIG['catalyst']['sentiment_keywords']['major_positive']`. -/
def majorPositiveKeywords : List String :=
  ["fda approval", "major contract", "breakthrough",
   "record earnings", "strategic partnership"]

/-- The list `ANALYSIS_CONFIG['catalyst']['sentiment_keywords']['major_negative']`. -/
def majorNegativeKeywords : List String :=
  ["sec probe", "guidance cut", "class action",
   "bankruptcy", "delisting"]

/-- Per-article sentiment of `StockAnalyzer._calculate_news_sentiment`
(the configured sentiment keywords are already lowercase, so the source
applies no `lower()` to them). -/
def articleSentiment (a : Article) : ℚ :=
  let text := articleText a
  let pos := positiveKeywords.countP (fun w => containsChars w.data text)
  let neg := negativeKeywords.countP (fun w => containsChars w.data text)
  if pos + neg = 0 then 50 else (pos : ℚ) / ((pos : ℚ) + (neg : ℚ)) * 100

/-- Embeds `StockAnalyzer._calculate_news_sentiment`. -/
def calculateNewsSentiment (news : List Article) : ℚ :=
  if news.isEmpty then 50 else npMean (news.map articleSentiment)

/-- Embeds `StockAnalyzer._check_major_news`. -/
def checkMajorNews (news : List Article) (kws : List String) : Bool :=
  news.any (fun a => kws.any (fun k => containsChars (lowerChars k) (articleText a)))

/-- Company profile fields the engine reads. -/
structure Profile where
  companyName : Option String
  nextEarningsInDays : Option ℤ

/-- Step 2 of `calculate_catalyst_score`: floor the sentiment at the
`earnings_boost` of 70 when earnings are within ±3 days. -/
def earningsAdjust (profile : Profile) (s : ℚ) : ℚ :=
  match profile.nextEarningsInDays with
  | none => s
  | some d => if d.natAbs ≤ 3 then max s 70 else s

/-- Step 3 of `calculate_catalyst_score`: add the `pr_bonus` of 15, capped
at 100, when a major-positive keyword matches. -/
def prAdjust (news : List Article) (s : ℚ) : ℚ :=
  if checkMajorNews news majorPositiveKeywords then min (s + 15) 100 else s

/-- Step 4 of `calculate_catalyst_score`: cap at the `negative_cap` of 30
when a major-negative keyword matches. -/
def negAdjust (news : List Article) (s : ℚ) : ℚ :=
  if checkMajorNews news majorNegativeKeywords then min s 30 else s

/-- Embeds `StockAnalyzer.calculate_catalyst_score`. -/
def calculateCatalystScore (news : List Article) (profile : Profile) : ℚ :=
  npClip (negAdjust news (prAdjust news (earningsAdjust profile (calculateNewsSentiment news))) / 10) 0 10

/-!
## Fundamental, short-interest, growth and options factors
-/

/-- Python `d.get(k, default)` on a numeric dict. -/
def dictGet (m : List (String × ℚ)) (k : String) (d : ℚ) : ℚ := (m.lookup k).getD d

/-- Embeds `StockAnalyzer.calculate_fundamental_quality_score` (neutral 5.0 on an
empty/missing financials dict). -/
def calculateFundamentalQualityScore (financials : List (String × ℚ)) : ℚ :=
  if financials.isEmpty then 5
  else
    let roicPct := toPercentile (dictGet financials ("roic") 0) [0, 5, 10, 15, 20, 30, 40, 60]
    let fcfPct := toPercentile (dictGet financials ("fcf_yield") 0) [0, 2, 4, 6, 8, 10, 15, 25]
    let debtScore := 100 - toPercentile (dictGet financials ("debt_to_equity") 1)
      [0, 0.2, 0.5, 1, 1.5, 2, 3, 5]
    let epsStabilityScore := 100 - toPercentile (dictGet financials ("eps_stability") 50)
      [0, 10, 20, 30, 50, 75, 100, 150]
    npClip ((0.35 * roicPct + 0.35 * fcfPct + 0.15 * debtScore + 0.15 * epsStabilityScore) / 10) 0 10

/-- Embeds `StockAnalyzer.calculate_short_interest_score`. -/
def calculateShortInterestScore (shortData : List (String × ℚ)) : ℚ :=
  if shortData.isEmpty then 5
  else
    let dtcScore := 100 - toPercentile (dictGet shortData ("days_to_cover") 3) [0, 1, 2, 3, 5, 7, 10, 15]
    let sfScore := 100 - toPercentile (dictGet shortData ("short_float_percent") 10)
      [0, 5, 10, 15, 20, 30, 40, 60]
    let scScore := 100 - toPercentile (dictGet shortData ("short_change_1m") 0)
      [-50, -25, -10, 0, 10, 25, 50, 100]
    npClip ((0.4 * dtcScore + 0.4 * sfScore + 0.2 * scScore) / 10) 0 10

/-- Embeds `StockAnalyzer.calculate_growth_score`. -/
def calculateGrowthScore (growthData : List (String × ℚ)) : ℚ :=
  if growthData.isEmpty then 5
  else
    let revPct := toPercentile (dictGet growthData ("revenue_growth_1y") 0) [-10, 0, 5, 10, 15, 25, 40, 60]
    let epsPct := toPercentile (dictGet growthData ("eps_growth_1y") 0) [-20, 0, 10, 20, 30, 50, 75, 100]
    let cagrPct := toPercentile (dictGet growthData ("cagr_5y") 0) [-5, 0, 5, 10, 15, 20, 30, 50]
    npClip ((0.4 * revPct + 0.4 * epsPct + 0.2 * cagrPct) / 10) 0 10

/-- Put/Call ratio tier of `calculate_options_score` (up to 4 points;
no points added when the field is absent or the ratio is 1.5 or more). -/
def pcrPoints (opc : Option ℚ) : ℚ :=
  match opc with
  | none => 0
  | some pc =>
    if pc < 0.7 then 4 else if pc < 0.85 then 3 else if pc < 1 then 2
    else if pc < 1.2 then 1.5 else if pc < 1.5 then 1 else 0

/-- ATM implied-volatility tier of `calculate_options_score` (up to 3
points; the trailing `else` adds 0.5 whenever the field is present). -/
def ivPoints (oiv : Option ℚ) : ℚ :=
  match oiv with
  | none => 0
  | some iv =>
    let ivPct := if iv < 1 then iv * 100 else iv
    if 20 ≤ ivPct ∧ ivPct ≤ 40 then 3
    else if 40 < ivPct ∧ ivPct ≤ 50 then 2
    else if (15 ≤ ivPct ∧ ivPct < 20) ∨ (50 < ivPct ∧ ivPct ≤ 60) then 1
    else 0.5

/-- Total-volume tier of `calculate_options_score` (up to 2 points). -/
def volPoints (totalVol : ℚ) : ℚ :=
  if 10000 < totalVol then 2 else if 5000 < totalVol then 1.5
  else if 1000 < totalVol then 1 else if 100 < totalVol then 0.5 else 0

/-- Net-delta tier of `calculate_options_score` (up to 1 point; the
missing field defaults to 0, which lands in the 0.3-point band). -/
def deltaPoints (netDelta : ℚ) : ℚ :=
  if 100 < netDelta then 1 else if 0 < netDelta then 0.7
  else if -100 < netDelta then 0.3 else 0

/-- Embeds `StockAnalyzer.calculate_options_score`: additive point tiers, 0.0 when
the options dict is absent (`none`) or empty (Python falsiness). -/
def calculateOptionsScore (od : Option (List (String × ℚ))) : ℚ :=
  match od with
  | none => 0
  | some l =>
    if l.isEmpty then 0
    else
      min (pcrPoints (l.lookup ("put_call_ratio")) +
        ivPoints (l.lookup ("atm_implied_volatility")) +
        volPoints (dictGet l ("total_call_volume") 0 + dictGet l ("total_put_volume") 0) +
        deltaPoints (dictGet l ("net_delta") 0)) 10

/-!
## Input bundle and the technical factor calculators
-/

/-- One OHLCV bar (the engine reads high/low/close/volume). -/
structure Bar where
  high : ℚ
  low : ℚ
  close : ℚ
  volume : ℚ

/-- The per-symbol raw data bundle fed to `analyze_stock`.  A Python dict
with a missing optional key is modelled by `none` / the empty list. -/
structure Bundle where
  symbol : Option String
  historical : List Bar
  profile : Profile
  news : List Article
  spyData : List Bar
  sectorData : List Bar
  financials : List (String × ℚ)
  shortInterest : List (String × ℚ)
  growthMetrics : List (String × ℚ)
  optionsAnalysis : Option (List (String × ℚ))

/-- Column extraction `[d['close'] for d in hist]`. -/
def closesOf (h : List Bar) : List ℚ := h.map Bar.close

/-- Column extraction for highs. -/
def highsOf (h : List Bar) : List ℚ := h.map Bar.high

/-- Column extraction for lows. -/
def lowsOf (h : List Bar) : List ℚ := h.map Bar.low

/-- Column extraction for volumes. -/
def volumesOf (h : List Bar) : List ℚ := h.map Bar.volume

/-- Embeds `StockAnalyzer.calculate_momentum_score`. -/
def calculateMomentumScore (b : Bundle) : ℚ :=
  let closes := closesOf b.historical
  let volumes := volumesOf b.historical
  let highs := highsOf b.historical
  let lows := lowsOf b.historical
  let roc5 := if 5 < closes.length then (idxNeg closes 1 / idxNeg closes 6 - 1) * 100 else 0
  let roc5Pct := toPercentile roc5 [-10, -5, -2, 0, 2, 5, 10, 20]
  let roc20 := if 20 < closes.length then (idxNeg closes 1 / idxNeg closes 21 - 1) * 100 else 0
  let roc20Pct := toPercentile roc20 [-20, -10, -5, 0, 5, 10, 20, 40]
  let ema20 := calcEma closes 20
  let emaSlopePct :=
    if 5 < ema20.length then
      toPercentile ((idxNeg ema20 1 - idxNeg ema20 6) / idxNeg closes 1 * 100)
        [-2, -1, -0.5, 0, 0.5, 1, 2, 4]
    else 50
  -- `closes[-1] > vwap` is False when vwap is NaN/inf, so a `none` VWAP gives sign 0.
  let vwapSign : ℚ := match calcVwap highs lows closes volumes with
    | none => 0
    | some w => if w < idxNeg closes 1 then 100 else 0
  -- `ema20[-1]` faults in Python when fewer than 20 bars exist; that is
  -- unreachable from validated input (200-bar minimum).
  let e20v := idxNeg ema20 1
  let ema50 := calcEma closes 50
  let e50v := if 0 < ema50.length then idxNeg ema50 1 else e20v
  let trendAlign : ℚ := if e20v < idxNeg closes 1 ∧ e50v < e20v then 100 else 0
  npClip ((0.30 * roc5Pct + 0.30 * roc20Pct + 0.20 * emaSlopePct +
    0.10 * vwapSign + 0.10 * trendAlign) / 10) 0 10

/-- Embeds `StockAnalyzer.calculate_volume_score`. -/
def calculateVolumeScore (b : Bundle) : ℚ :=
  let volumes := volumesOf b.historical
  let L := volumes.length
  let relVolPct :=
    if 20 < L then
      let smaVol := npMean ((volumes.drop (L - 21)).take 20)
      let relVol := if 0 < smaVol then idxNeg volumes 1 / smaVol else 1
      toPercentile relVol [0.5, 0.7, 0.9, 1, 1.2, 1.5, 2, 3]
    else 50
  let lookback := min 200 L
  let volPercentile : ℚ :=
    if 20 < lookback then
      ((lastN lookback volumes).countP (fun x => x < idxNeg volumes 1) : ℚ) /
        ((lastN lookback volumes).length : ℚ) * 100
    else 50
  let hvClusterPct :=
    if 30 < L then
      let clusterCount := (List.range 10).countP (fun i =>
        let pv := if 21 + i < L then (volumes.drop (L - 21 - i)).take 20
                  else volumes.take (L - 1 - i)
        if pv.length = 0 then false
        else
          let avg := npMean pv
          -- numpy gives `volumes[idx]/0 = ±inf` (or NaN at 0/0): only +inf
          -- exceeds the 1.5 cluster threshold.
          if avg = 0 then decide (0 < volumes.getD (L - 1 - i) 0)
          else decide ((3 : ℚ)/2 < volumes.getD (L - 1 - i) 0 / avg))
      toPercentile ((clusterCount : ℚ) / 10 * 100) [0, 10, 20, 30, 40, 50, 60, 80]
    else 50
  npClip ((0.50 * relVolPct + 0.30 * volPercentile + 0.20 * hvClusterPct) / 10) 0 10

/-- Embeds `StockAnalyzer.calculate_technical_score`. -/
def calculateTechnicalScore (b : Bundle) : ℚ :=
  let closes := closesOf b.historical
  let highs := highsOf b.historical
  let lows := lowsOf b.historical
  let rsi := calcRsi closes 14
  let rsiDivScore := detectRsiDivergence closes rsi
  let atr := calcAtr highs lows closes 14
  let atrExpPct :=
    if 14 < atr.length then
      let prior := idxNeg atr 15
      let atrExpansion := if 0 < prior then idxNeg atr 1 / prior else 1
      toPercentile atrExpansion [0.8, 0.9, 0.95, 1, 1.05, 1.1, 1.2, 1.5]
    else 50
  let ema20 := calcEma closes 20
  let ema50 := calcEma closes 50
  let ema200 := calcEma closes 200
  let c := idxNeg closes 1
  let maStack := calculateMaStack c
    (if 0 < ema20.length then idxNeg ema20 1 else c)
    (if 0 < ema50.length then idxNeg ema50 1 else c)
    (if 0 < ema200.length then idxNeg ema200 1 else c)
  let breakoutProxPct := toPercentile (calculateBreakoutProximity closes highs lows 20)
    [-20, -10, -5, 0, 5, 10, 20, 40]
  npClip ((0.25 * rsiDivScore + 0.25 * atrExpPct + 0.25 * maStack + 0.25 * breakoutProxPct) / 10) 0 10

open Classical in
/-- Embeds `StockAnalyzer.calculate_volatility_score` (in ℝ because of the
Bollinger standard deviation). -/
noncomputable def calculateVolatilityScore (b : Bundle) : ℝ :=
  let closes := closesOf b.historical
  let highs := highsOf b.historical
  let lows := lowsOf b.historical
  let atr := calcAtr highs lows closes 14
  let atrPct : ℚ :=
    if 0 < atr.length ∧ 0 < idxNeg closes 1 then
      toPercentile (idxNeg atr 1 / idxNeg closes 1 * 100) [1, 2, 3, 4, 5, 6, 8, 12]
    else 50
  let bbw := calcBbWidth closes 20 2
  let k := bbw.length
  let bbSignal : ℝ :=
    if 10 < k then
      let today : ℝ := (((bbw.take (k - 1)).filter (fun w => decide (w < bbw.getD (k - 1) 0))).length : ℝ) /
        (((bbw.take (k - 1)).length : ℕ) : ℝ) * 100
      let prior : ℝ :=
        if 11 < k then
          (((bbw.take (k - 11)).filter (fun w => decide (w < bbw.getD (k - 11) 0))).length : ℝ) /
            (((bbw.take (k - 11)).length : ℕ) : ℝ) * 100
        else 50
      min (max ((today - prior) * 0.5 + 50) 0) 100
    else 50
  min (max ((0.60 * (atrPct : ℝ) + 0.40 * bbSignal) / 10) 0) 10

/-- Embeds `StockAnalyzer.calculate_relative_strength_score`. -/
def calculateRelativeStrengthScore (b : Bundle) : ℚ :=
  if b.historical.length < 5 ∨ b.spyData.length < 5 then 5
  else
    let stockCloses := closesOf b.historical
    let stockRoc := (idxNeg stockCloses 1 / idxNeg stockCloses 6 - 1) * 100
    let spyCloses := closesOf b.spyData
    let spyRoc := (idxNeg spyCloses 1 / idxNeg spyCloses 6 - 1) * 100
    let vsSpyPct := toPercentile (stockRoc - spyRoc) [-10, -5, -2, 0, 2, 5, 10, 20]
    let vsSectorPct :=
      if 5 ≤ b.sectorData.length then
        let sectorCloses := closesOf b.sectorData
        let sectorRoc := (idxNeg sectorCloses 1 / idxNeg sectorCloses 6 - 1) * 100
        toPercentile (stockRoc - sectorRoc) [-10, -5, -2, 0, 2, 5, 10, 20]
      else vsSpyPct
    let spyRoc20 := if 20 < spyCloses.length then (idxNeg spyCloses 1 / idxNeg spyCloses 21 - 1) * 100 else 0
    let spyAtr := calcAtr (highsOf b.spyData) (lowsOf b.spyData) spyCloses 20
    let adj : ℚ :=
      if |spyRoc20| < 0.01 * 100 ∧ 10 < spyAtr.length ∧ idxNeg spyAtr 11 < idxNeg spyAtr 1
      then 0.7 else 0.5
    npClip ((adj * (0.60 * vsSpyPct + 0.40 * vsSectorPct) +
      (1 - adj) * 0.5 * (vsSpyPct + vsSectorPct)) / 10) 0 10

/-!
## The composite aggregator and the batch ranker
-/

/-- The nine configured top-level weights, `ANALYSIS_CONFIG['weights']`. -/
def weightsConfig : List (String × ℚ) :=
  [("momentum_score", 0.20), ("volume_score", 0.12), ("technical_score", 0.18),
   ("volatility_score", 0.08), ("relative_strength_score", 0.12), ("catalyst_score", 0.10),
   ("fundamental_quality_score", 0.10), ("short_interest_score", 0.05), ("growth_score", 0.05)]

/-- The `scores` dict of `analyze_stock` just before the composite is
computed: the nine factor entries plus `options_score`, in insertion
order. -/
noncomputable def scoresList (b : Bundle) : List (String × ℝ) :=
  [("momentum_score", ((calculateMomentumScore b : ℚ) : ℝ)),
   ("volume_score", ((calculateVolumeScore b : ℚ) : ℝ)),
   ("technical_score", ((calculateTechnicalScore b : ℚ) : ℝ)),
   ("volatility_score", calculateVolatilityScore b),
   ("relative_strength_score", ((calculateRelativeStrengthScore b : ℚ) : ℝ)),
   ("catalyst_score", ((calculateCatalystScore b.news b.profile : ℚ) : ℝ)),
   ("fundamental_quality_score", ((calculateFundamentalQualityScore b.financials : ℚ) : ℝ)),
   ("short_interest_score", ((calculateShortInterestScore b.shortInterest : ℚ) : ℝ)),
   ("growth_score", ((calculateGrowthScore b.growthMetrics : ℚ) : ℝ)),
   ("options_score", ((calculateOptionsScore b.optionsAnalysis : ℚ) : ℝ))]

/-- Embeds `composite = sum(scores[k] * self.weights[k] for k in scores.keys())`:
each dict entry is multiplied by its configured weight; a key absent from
the weights dict raises `KeyError`, modelled by `none`. -/
noncomputable def compositeScore (scores : List (String × ℝ)) : Option ℝ :=
  (scores.mapM (fun kv => (weightsConfig.lookup kv.1).map (fun w => kv.2 * (w : ℝ)))).map List.sum

/-- The metrics snapshot of `StockAnalyzer._extract_metrics`. -/
structure Metrics where
  currentPrice : ℚ
  dailyChange : ℚ
  volume : ℚ
  avgVolume : ℚ
  roc5d : ℚ
  roc20d : ℚ

/-- Embeds `StockAnalyzer._extract_metrics`. -/
def extractMetrics (b : Bundle) : Metrics :=
  let closes := closesOf b.historical
  let volumes := volumesOf b.historical
  { currentPrice := idxNeg closes 1
    dailyChange := if 1 < closes.length then (idxNeg closes 1 / idxNeg closes 2 - 1) * 100 else 0
    volume := idxNeg volumes 1
    avgVolume := if 20 ≤ volumes.length then npMean (lastN 20 volumes) else npMean volumes
    roc5d := if 5 < closes.length then (idxNeg closes 1 / idxNeg closes 6 - 1) * 100 else 0
    roc20d := if 20 < closes.length then (idxNeg closes 1 / idxNeg closes 21 - 1) * 100 else 0 }

/-- Embeds `StockAnalyzer._validate_data`: the bundle must carry at least the
configured `min_data_points` of 200 historical bars (a missing or empty
`historical` entry is the empty list, which fails the same check). -/
def validateData (b : Bundle) : Bool := 200 ≤ b.historical.length

/-- The analysis result dict of `analyze_stock`. -/
structure StockScores where
  entries : List (String × ℝ)
  composite : ℝ
  metrics : Metrics

/-- Embeds `StockAnalyzer.analyze_stock`.  `none` models both the `None` returned
on failed validation and an uncaught exception while scoring (every caller
in the repository treats the two alike; `analyze_batch` catches the
exception and skips the symbol). -/
noncomputable def analyzeStock (b : Bundle) : Option StockScores :=
  if validateData b then
    match compositeScore (scoresList b) with
    | none => none
    | some c => some ⟨scoresList b, c, extractMetrics b⟩
  else none

/-- A batch result entry (`scores` dict plus `symbol` and `company`). -/
structure BatchEntry where
  symbol : String
  company : String
  scores : StockScores

open Classical in
/-- Embeds `StockAnalyzer.analyze_batch`: score every bundle, skip the ones that
fail or raise, sort descending by composite score. -/
noncomputable def analyzeBatch (stocks : List Bundle) : List BatchEntry :=
  let results := stocks.filterMap (fun b =>
    (analyzeStock b).map (fun s =>
      { symbol := b.symbol.getD ("N/A")
        company := b.profile.companyName.getD ("N/A")
        scores := s }))
  results.insertionSort (fun x y => y.scores.composite ≤ x.scores.composite)

/-!
## Concrete sample inputs used in the closed theorems below
-/

/-- A benign OHLCV bar. -/
def sampleBar : Bar := { high := 101, low := 99, close := 100, volume := 1000 }

/-- A data bundle that passes validation: 200 historical bars. -/
def sampleBundle : Bundle :=
  { symbol := some ("AAA")
    historical := List.replicate 200 sampleBar
    profile := { companyName := some ("Alpha Co"), nextEarningsInDays := none }
    news := []
    spyData := []
    sectorData := []
    financials := []
    shortInterest := []
    growthMetrics := []
    optionsAnalysis := none }

/-- A second valid bundle for the batch scenario. -/
def sampleBundle2 : Bundle := { sampleBundle with symbol := some ("CCC") }

/-- The middle bundle of the batch scenario: corrupt/empty history. -/
def emptyHistBundle : Bundle := { sampleBundle with symbol := some ("BBB"), historical := [] }

/-- Closes whose last-10 window `[5,4,3,6,7,8,9,10,11,12]` has its low at
window index 2 (the first half) with the latest close above it. -/
def c7Closes : List ℚ :=
  [5, 5, 5, 5, 5, 5, 5, 5, 5, 5, 5, 4, 3, 6, 7, 8, 9, 10, 11, 12]

/-- RSI series whose last-10 window has its low at index 2 with the latest
value above it. -/
def c7Rsi : List ℚ :=
  [50, 50, 50, 50, 50, 50, 50, 50, 50, 50, 50, 40, 30, 60, 65, 70, 75, 80, 85, 90]

/-!
## Lemmas about the percentile normalizer
-/

lemma interpPair_bounds {n i : ℕ} {a b v : ℚ} (hn : 2 ≤ n) (hin : i + 2 ≤ n)
    (hav : a ≤ v) (hvb : v ≤ b) :
    (i : ℚ) / ((n : ℚ) - 1) * 100 ≤ interpPair n i a b v ∧
      interpPair n i a b v ≤ ((i : ℚ) + 1) / ((n : ℚ) - 1) * 100 := by
  have hn1 : (0 : ℚ) < (n : ℚ) - 1 := by
    have h2 : (2 : ℚ) ≤ (n : ℚ) := by exact_mod_cast hn
    linarith
  have hr1 : 0 ≤ (v - a) / (b - a) ∧ (v - a) / (b - a) ≤ 1 := by
    by_cases hba : b - a = 0
    · simp [hba]
    · have hba' : 0 < b - a := lt_of_le_of_ne (by linarith) (Ne.symm hba)
      exact ⟨div_nonneg (by linarith) hba'.le, by rw [div_le_one hba']; linarith⟩
  have hd : (0 : ℚ) ≤ ((i : ℚ) + 1) / ((n : ℚ) - 1) * 100 - (i : ℚ) / ((n : ℚ) - 1) * 100 := by
    have hdd : (i : ℚ) / ((n : ℚ) - 1) ≤ ((i : ℚ) + 1) / ((n : ℚ) - 1) :=
      (div_le_div_iff_of_pos_right hn1).mpr (by linarith)
    nlinarith
  unfold interpPair
  constructor
  · nlinarith [mul_nonneg hd hr1.1]
  · nlinarith [mul_le_of_le_one_right hd hr1.2]

lemma pctPos_nonneg {n i : ℕ} (hn : 2 ≤ n) : (0 : ℚ) ≤ (i : ℚ) / ((n : ℚ) - 1) * 100 := by
  have hn1 : (0 : ℚ) < (n : ℚ) - 1 := by
    have h2 : (2 : ℚ) ≤ (n : ℚ) := by exact_mod_cast hn
    linarith
  positivity

lemma pctPos_le_100 {n i : ℕ} (hn : 2 ≤ n) (hi : i + 1 ≤ n) :
    (i : ℚ) / ((n : ℚ) - 1) * 100 ≤ 100 := by
  have hn1 : (0 : ℚ) < (n : ℚ) - 1 := by
    have h2 : (2 : ℚ) ≤ (n : ℚ) := by exact_mod_cast hn
    linarith
  have hi' : (i : ℚ) ≤ (n : ℚ) - 1 := by
    have : (i : ℚ) + 1 ≤ (n : ℚ) := by exact_mod_cast hi
    linarith
  have : (i : ℚ) / ((n : ℚ) - 1) ≤ 1 := by rw [div_le_one hn1]; linarith
  nlinarith

lemma scanRefs_range (v : ℚ) (n : ℕ) (hn : 2 ≤ n) :
    ∀ (l : List ℚ) (i : ℕ), i + l.length = n →
      0 ≤ scanRefs v n i l ∧ scanRefs v n i l ≤ 100 := by
  intro l
  induction l with
  | nil => intro i _; constructor <;> norm_num [scanRefs]
  | cons a t ih =>
    intro i hlen
    cases t with
    | nil => constructor <;> norm_num [scanRefs]
    | cons b r =>
      simp only [scanRefs]
      by_cases hab : a ≤ v ∧ v ≤ b
      · rw [if_pos hab]
        have hin : i + 2 ≤ n := by simp at hlen; omega
        have hb := interpPair_bounds hn hin hab.1 hab.2
        refine ⟨le_trans (pctPos_nonneg hn) hb.1, le_trans hb.2 ?_⟩
        have : ((i : ℚ) + 1) = ((i + 1 : ℕ) : ℚ) := by push_cast; ring
        rw [this]
        exact pctPos_le_100 hn (by omega)
      · rw [if_neg hab]
        refine ih (i + 1) ?_
        simp at hlen ⊢
        omega

lemma pctCore_range (v : ℚ) (l : List ℚ) : 0 ≤ pctCore v l ∧ pctCore v l ≤ 100 := by
  cases l with
  | nil => constructor <;> norm_num [pctCore]
  | cons r0 rs =>
    by_cases h1 : v ≤ r0
    · simp [pctCore, h1]
    · by_cases h2 : (r0 :: rs).getLast (List.cons_ne_nil r0 rs) ≤ v
      · simp [pctCore, h1, h2]
      · have he : pctCore v (r0 :: rs) = scanRefs v (r0 :: rs).length 0 (r0 :: rs) := by
          simp [pctCore, h1, h2]
        rw [he]
        cases rs with
        | nil =>
          exact absurd (le_of_not_le h1) (by simpa [List.getLast] using h2)
        | cons b r =>
          exact scanRefs_range v _ (by simp) (r0 :: b :: r) 0 (by simp)

lemma toPercentile_range (v : ℚ) (refs : List ℚ) :
    0 ≤ toPercentile v refs ∧ toPercentile v refs ≤ 100 :=
  pctCore_range v (pySorted refs)

lemma sorted_lt_getD {l : List ℚ} (hs : l.Sorted (· < ·)) {i j : ℕ} (hij : i < j)
    (hj : j < l.length) : l.getD i 0 < l.getD j 0 := by
  rw [List.getD_eq_get _ _ (lt_trans hij hj), List.getD_eq_get _ _ hj]
  exact hs.get_strictMono (by exact Fin.mk_lt_mk.mpr hij)

lemma scanRefs_hit (v : ℚ) (n : ℕ) (hn : 2 ≤ n) :
    ∀ (t : List ℚ) (a : ℚ) (i k : ℕ), (a :: t).Sorted (· < ·) →
      i + (a :: t).length = n → k + 1 < (a :: t).length →
      v = (a :: t).getD (k + 1) 0 →
      scanRefs v n i (a :: t) = ((i : ℚ) + (k : ℚ) + 1) / ((n : ℚ) - 1) * 100 := by
  intro t
  induction t with
  | nil => intro a i k _ _ hk _; simp at hk
  | cons b r ih =>
    intro a i k hs hlen hk hv
    cases k with
    | zero =>
      have hvb : v = b := by simpa using hv
      have hab : a < b := List.rel_of_sorted_cons hs b (by simp)
      simp only [scanRefs]
      rw [if_pos ⟨by linarith [hvb ▸ hab], le_of_eq hvb⟩]
      unfold interpPair
      have hba : b - a ≠ 0 := by intro h; apply absurd hab; rw [sub_eq_zero] at h; simp [h]
      rw [hvb, div_self hba]
      push_cast
      ring
    | succ k' =>
      have hv' : v = (b :: r).getD (k' + 1) 0 := by simpa using hv
      have hbv : b < v := by
        have := sorted_lt_getD (hs.of_cons) (show 0 < k' + 1 by omega) (by simpa using hk)
        simpa [hv'] using this
      simp only [scanRefs]
      rw [if_neg (by rintro ⟨-, h⟩; exact absurd h (not_le.mpr hbv))]
      have := ih b (i + 1) k' hs.of_cons (by simp at hlen ⊢; omega) (by simpa using hk) hv'
      rw [this]
      push_cast
      ring_nf

lemma pctCore_get_strict (l : List ℚ) (hs : l.Sorted (· < ·)) (h2 : 2 ≤ l.length)
    (k : ℕ) (hk : k < l.length) :
    pctCore (l.getD k 0) l = (k : ℚ) / ((l.length : ℚ) - 1) * 100 := by
  cases l with
  | nil => simp at hk
  | cons r0 rs =>
    have hn1 : ((r0 :: rs).length : ℚ) - 1 ≠ 0 := by
      have h2' : (2 : ℚ) ≤ ((r0 :: rs).length : ℚ) := by exact_mod_cast h2
      intro h
      have h1 : ((r0 :: rs).length : ℚ) = 1 := sub_eq_zero.mp h
      linarith
    cases k with
    | zero =>
      simp only [pctCore, List.getD]
      rw [if_pos (by simp)]
      simp
    | succ k' =>
      have hv0 : r0 < (r0 :: rs).getD (k' + 1) 0 := by
        have := sorted_lt_getD hs (show 0 < k' + 1 by omega) hk
        simpa using this
      simp only [pctCore]
      rw [if_neg (not_le.mpr hv0)]
      have hlast : (r0 :: rs).getLast (List.cons_ne_nil r0 rs) =
          (r0 :: rs).getD ((r0 :: rs).length - 1) 0 := by
        rw [List.getLast_eq_get, List.getD_eq_get]
      by_cases hke : k' + 1 = (r0 :: rs).length - 1
      · rw [if_pos (by rw [hlast, hke])]
        rw [hke]
        have : (((r0 :: rs).length - 1 : ℕ) : ℚ) = ((r0 :: rs).length : ℚ) - 1 := by
          have h1 : 1 ≤ (r0 :: rs).length := by simp
          push_cast [h1]
          ring
        rw [this, div_self hn1]
        ring
      · have hklt : k' + 1 < (r0 :: rs).length - 1 := by omega
        rw [if_neg (by
          rw [hlast]
          exact not_le.mpr (sorted_lt_getD hs hklt (by omega)))]
        rw [scanRefs_hit _ _ h2 rs r0 0 k' hs (Nat.zero_add _) hk rfl]
        push_cast
        ring_nf

lemma scanRefs_lb (v : ℚ) (n : ℕ) (hn : 2 ≤ n) :
    ∀ (t : List ℚ) (a : ℚ) (i : ℕ), (a :: t).Sorted (· ≤ ·) →
      i + (a :: t).length = n → a < v →
      v ≤ (a :: t).getLast (List.cons_ne_nil a t) →
      (i : ℚ) / ((n : ℚ) - 1) * 100 ≤ scanRefs v n i (a :: t) := by
  intro t
  induction t with
  | nil =>
    intro a i _ _ hav hvl
    simp [List.getLast] at hvl
    exact absurd (lt_of_lt_of_le hav hvl) (lt_irrefl a)
  | cons b r ih =>
    intro a i hs hlen hav hvl
    simp only [scanRefs]
    by_cases hab : a ≤ v ∧ v ≤ b
    · rw [if_pos hab]
      exact (interpPair_bounds hn (by simp at hlen; omega) hab.1 hab.2).1
    · rw [if_neg hab]
      have hbv : b < v := by
        rcases not_and_or.mp hab with h | h
        · exact absurd hav.le h
        · exact not_le.mp h
      have hstep : (i : ℚ) / ((n : ℚ) - 1) * 100 ≤ ((i + 1 : ℕ) : ℚ) / ((n : ℚ) - 1) * 100 := by
        have hn1 : (0 : ℚ) < (n : ℚ) - 1 := by
          have h2 : (2 : ℚ) ≤ (n : ℚ) := by exact_mod_cast hn
          linarith
        have : (i : ℚ) / ((n : ℚ) - 1) ≤ ((i + 1 : ℕ) : ℚ) / ((n : ℚ) - 1) := by
          apply (div_le_div_iff_of_pos_right hn1).mpr
          push_cast
          linarith
        nlinarith
      refine le_trans hstep (ih b (i + 1) hs.of_cons ?_ hbv ?_)
      · simp at hlen ⊢; omega
      · rwa [List.getLast_cons (List.cons_ne_nil b r)] at hvl

lemma scanRefs_mono (va vb : ℚ) (n : ℕ) (hn : 2 ≤ n) (hab : va ≤ vb) :
    ∀ (t : List ℚ) (a : ℚ) (i : ℕ), (a :: t).Sorted (· ≤ ·) →
      i + (a :: t).length = n → a < va →
      vb ≤ (a :: t).getLast (List.cons_ne_nil a t) →
      scanRefs va n i (a :: t) ≤ scanRefs vb n i (a :: t) := by
  intro t
  induction t with
  | nil =>
    intro a i _ _ hava hvbl
    simp [List.getLast] at hvbl
    exact absurd (lt_of_lt_of_le hava (le_trans hab hvbl)) (lt_irrefl a)
  | cons b r ih =>
    intro a i hs hlen hava hvbl
    have hn1 : (0 : ℚ) < (n : ℚ) - 1 := by
      have h2 : (2 : ℚ) ≤ (n : ℚ) := by exact_mod_cast hn
      linarith
    simp only [scanRefs]
    by_cases h1 : a ≤ va ∧ va ≤ b
    · rw [if_pos h1]
      by_cases h2 : a ≤ vb ∧ vb ≤ b
      · rw [if_pos h2]
        have hba : 0 < b - a := by linarith [h1.2]
        unfold interpPair
        have hr : (va - a) / (b - a) ≤ (vb - a) / (b - a) :=
          (div_le_div_iff_of_pos_right hba).mpr (by linarith)
        have hd : (0 : ℚ) ≤ ((i : ℚ) + 1) / ((n : ℚ) - 1) * 100 - (i : ℚ) / ((n : ℚ) - 1) * 100 := by
          have : (i : ℚ) / ((n : ℚ) - 1) ≤ ((i : ℚ) + 1) / ((n : ℚ) - 1) :=
            (div_le_div_iff_of_pos_right hn1).mpr (by linarith)
          nlinarith
        nlinarith [mul_le_mul_of_nonneg_left hr hd]
      · rw [if_neg h2]
        have hbvb : b < vb := by
          rcases not_and_or.mp h2 with h | h
          · exact absurd (le_trans h1.1 hab) h
          · exact not_le.mp h
        have hup : interpPair n i a b va ≤ ((i : ℚ) + 1) / ((n : ℚ) - 1) * 100 :=
          (interpPair_bounds hn (by simp at hlen; omega) h1.1 h1.2).2
        have hlb := scanRefs_lb vb n hn r b (i + 1) hs.of_cons
          (by simp at hlen ⊢; omega) hbvb
          (by rwa [List.getLast_cons (List.cons_ne_nil b r)] at hvbl)
        refine le_trans hup (le_trans (le_of_eq ?_) hlb)
        push_cast
        ring
    · rw [if_neg h1]
      have hbva : b < va := by
        rcases not_and_or.mp h1 with h | h
        · exact absurd hava.le h
        · exact not_le.mp h
      rw [if_neg (by rintro ⟨-, h⟩; exact absurd h (not_le.mpr (lt_of_lt_of_le hbva hab)))]
      exact ih b (i + 1) hs.of_cons (by simp at hlen ⊢; omega) hbva
        (by rwa [List.getLast_cons (List.cons_ne_nil b r)] at hvbl)

lemma pctCore_mono {l : List ℚ} (hs : l.Sorted (· ≤ ·)) {a b : ℚ} (hab : a ≤ b) :
    pctCore a l ≤ pctCore b l := by
  cases l with
  | nil => simp [pctCore]
  | cons r0 rs =>
    by_cases h1a : a ≤ r0
    · have ha0 : pctCore a (r0 :: rs) = 0 := by simp [pctCore, h1a]
      rw [ha0]
      exact (pctCore_range b _).1
    · have h1b : ¬ b ≤ r0 := fun h => h1a (le_trans hab h)
      by_cases h2b : (r0 :: rs).getLast (List.cons_ne_nil r0 rs) ≤ b
      · have hb100 : pctCore b (r0 :: rs) = 100 := by simp [pctCore, h1b, h2b]
        rw [hb100]
        exact (pctCore_range a _).2
      · have h2a : ¬ (r0 :: rs).getLast (List.cons_ne_nil r0 rs) ≤ a :=
          fun h => h2b (le_trans h hab)
        have hae : pctCore a (r0 :: rs) = scanRefs a (r0 :: rs).length 0 (r0 :: rs) := by
          simp [pctCore, h1a, h2a]
        have hbe : pctCore b (r0 :: rs) = scanRefs b (r0 :: rs).length 0 (r0 :: rs) := by
          simp [pctCore, h1b, h2b]
        rw [hae, hbe]
        cases rs with
        | nil => exact absurd (le_of_not_le h1a) (by simpa [List.getLast] using h2a)
        | cons b1 r1 =>
          exact scanRefs_mono a b _ (by simp) hab (b1 :: r1) r0 0 hs (by simp)
            (not_le.mp h1a) (le_of_lt (not_le.mp h2b))

lemma toPercentile_mono (refs : List ℚ) {a b : ℚ} (hab : a ≤ b) :
    toPercentile a refs ≤ toPercentile b refs :=
  pctCore_mono (List.sorted_insertionSort (· ≤ ·) refs) hab

/-!
## Lemmas about the aggregator, indicators and sentiment
-/

lemma compositeScore_scoresList_none (b : Bundle) : compositeScore (scoresList b) = none := by
  simp [compositeScore, scoresList, weightsConfig, List.mapM_cons, List.mapM_nil, List.lookup,
    List.mapM.loop]

lemma analyzeStock_valid_none (b : Bundle) (hv : validateData b = true) :
    analyzeStock b = none := by
  unfold analyzeStock
  rw [compositeScore_scoresList_none b]
  simp [hv]

lemma npMean_nonneg {l : List ℚ} (h : ∀ x ∈ l, 0 ≤ x) : 0 ≤ npMean l :=
  div_nonneg (List.sum_nonneg h) (Nat.cast_nonneg _)

lemma npMean_le_of_le {l : List ℚ} {c : ℚ} (hne : l ≠ []) (h : ∀ x ∈ l, x ≤ c) :
    npMean l ≤ c := by
  have hlen : (0 : ℚ) < (l.length : ℚ) := by
    have : 0 < l.length := List.length_pos.mpr hne
    exact_mod_cast this
  rw [npMean, div_le_iff hlen]
  calc l.sum ≤ l.length • c := List.sum_le_card_nsmul l c h
  _ = c * (l.length : ℚ) := by rw [nsmul_eq_mul]; ring

lemma rsiLoop_mem_range (period : ℕ) (hp : 1 ≤ period) :
    ∀ (pairs : List (ℚ × ℚ)) (ag al : ℚ), 0 ≤ ag → 0 ≤ al →
      (∀ p ∈ pairs, 0 ≤ p.1 ∧ 0 ≤ p.2) →
      ∀ r ∈ rsiLoop period ag al pairs, 0 ≤ r ∧ r ≤ 100 := by
  intro pairs
  induction pairs with
  | nil => intro ag al _ _ _ r hr; simp [rsiLoop] at hr
  | cons p rest ih =>
    intro ag al hag hal hmem r hr
    have hp1 : (0 : ℚ) ≤ (period : ℚ) - 1 := by
      have h1 : (1 : ℚ) ≤ (period : ℚ) := by exact_mod_cast hp
      linarith
    have hpq : (0 : ℚ) < (period : ℚ) := by
      have h1 : (1 : ℚ) ≤ (period : ℚ) := by exact_mod_cast hp
      linarith
    have hg := (hmem p (by simp)).1
    have hl := (hmem p (by simp)).2
    have hag2 : 0 ≤ (ag * ((period : ℚ) - 1) + p.1) / (period : ℚ) :=
      div_nonneg (by nlinarith) hpq.le
    have hal2 : 0 ≤ (al * ((period : ℚ) - 1) + p.2) / (period : ℚ) :=
      div_nonneg (by nlinarith) hpq.le
    simp only [rsiLoop] at hr
    rcases List.mem_cons.mp hr with h | h
    · subst h
      by_cases hz : (al * ((period : ℚ) - 1) + p.2) / (period : ℚ) = 0
      · rw [if_pos hz]; norm_num
      · rw [if_neg hz]
        have halpos : 0 < (al * ((period : ℚ) - 1) + p.2) / (period : ℚ) :=
          lt_of_le_of_ne hal2 (Ne.symm hz)
        have hrs : 0 ≤ (ag * ((period : ℚ) - 1) + p.1) / (period : ℚ) /
            ((al * ((period : ℚ) - 1) + p.2) / (period : ℚ)) :=
          div_nonneg hag2 halpos.le
        have hq1 : 0 < 100 / (1 + (ag * ((period : ℚ) - 1) + p.1) / (period : ℚ) /
            ((al * ((period : ℚ) - 1) + p.2) / (period : ℚ))) :=
          div_pos (by norm_num) (by linarith)
        have hq2 : 100 / (1 + (ag * ((period : ℚ) - 1) + p.1) / (period : ℚ) /
            ((al * ((period : ℚ) - 1) + p.2) / (period : ℚ))) ≤ 100 :=
          div_le_self (by norm_num) (by linarith)
        constructor <;> linarith
    · exact ih _ _ hag2 hal2 (fun q hq => hmem q (by simp [hq])) r h

lemma calcRsi_mem_range (closes : List ℚ) (period : ℕ) (hp : 1 ≤ period) :
    ∀ r ∈ calcRsi closes period, 0 ≤ r ∧ r ≤ 100 := by
  intro r hr
  unfold calcRsi at hr
  by_cases hlen : closes.length < period + 1
  · rw [if_pos hlen] at hr
    simp at hr
    subst hr
    norm_num
  · rw [if_neg hlen] at hr
    simp only [] at hr
    have hgain : ∀ x ∈ (npDiff closes).map (fun d => if 0 < d then d else 0), (0 : ℚ) ≤ x := by
      intro x hx
      rcases List.mem_map.mp hx with ⟨d, -, rfl⟩
      by_cases hd : 0 < d <;> simp [hd] <;> linarith
    have hloss : ∀ x ∈ (npDiff closes).map (fun d => if d < 0 then -d else 0), (0 : ℚ) ≤ x := by
      intro x hx
      rcases List.mem_map.mp hx with ⟨d, -, rfl⟩
      by_cases hd : d < 0 <;> simp [hd] <;> linarith
    rcases List.mem_append.mp hr with h | h
    · have := List.eq_of_mem_replicate h
      subst this
      norm_num
    · rcases List.mem_cons.mp h with h' | h'
      · subst h'; norm_num
      · refine rsiLoop_mem_range period hp _ _ _ ?_ ?_ ?_ r h'
        · exact npMean_nonneg (fun x hx => hgain x (List.take_subset _ _ hx))
        · exact npMean_nonneg (fun x hx => hloss x (List.take_subset _ _ hx))
        · intro q hq
          have hz := List.mem_zip hq
          exact ⟨hgain q.1 (List.drop_subset _ _ hz.1), hloss q.2 (List.drop_subset _ _ hz.2)⟩

lemma calcVwap_zero_volume (highs lows closes volumes : List ℚ)
    (hz : (lastN (min 20 closes.length) volumes).sum = 0) :
    calcVwap highs lows closes volumes = none := by
  unfold calcVwap
  simp only []
  rw [if_pos hz]

lemma bbWidthEntry_nonpos_mean (w : List ℚ) (ns : ℚ) (h : ¬ 0 < npMean w) :
    bbWidthEntry w ns = 0 := by
  unfold bbWidthEntry
  simp [h]

lemma articleSentiment_range (a : Article) :
    0 ≤ articleSentiment a ∧ articleSentiment a ≤ 100 := by
  unfold articleSentiment
  simp only []
  set p := positiveKeywords.countP (fun w => containsChars w.data (articleText a)) with hp
  set q := negativeKeywords.countP (fun w => containsChars w.data (articleText a)) with hq
  by_cases hz : p + q = 0
  · rw [if_pos hz]; norm_num
  · rw [if_neg hz]
    have hpq : (0 : ℚ) < (p : ℚ) + (q : ℚ) := by
      have : 0 < p + q := Nat.pos_of_ne_zero hz
      push_cast
      exact_mod_cast this
    constructor
    · positivity
    · have hle : (p : ℚ) / ((p : ℚ) + (q : ℚ)) ≤ 1 := by
        rw [div_le_one hpq]
        have : (0 : ℚ) ≤ (q : ℚ) := Nat.cast_nonneg q
        linarith
      nlinarith

lemma calculateNewsSentiment_range (news : List Article) :
    0 ≤ calculateNewsSentiment news ∧ calculateNewsSentiment news ≤ 100 := by
  unfold calculateNewsSentiment
  by_cases hne : news.isEmpty
  · rw [if_pos hne]; norm_num
  · rw [if_neg hne]
    constructor
    · refine npMean_nonneg ?_
      intro x hx
      rcases List.mem_map.mp hx with ⟨a, -, rfl⟩
      exact (articleSentiment_range a).1
    · refine npMean_le_of_le ?_ ?_
      · simp only [ne_eq, List.map_eq_nil]
        intro h
        rw [h] at hne
        simp at hne
      · intro x hx
        rcases List.mem_map.mp hx with ⟨a, -, rfl⟩
        exact (articleSentiment_range a).2

lemma pcrPoints_nonneg (o : Option ℚ) : 0 ≤ pcrPoints o := by
  rcases o with _ | pc
  · norm_num [pcrPoints]
  · simp only [pcrPoints]
    split_ifs <;> norm_num

lemma ivPoints_nonneg (o : Option ℚ) : 0 ≤ ivPoints o := by
  rcases o with _ | iv
  · norm_num [ivPoints]
  · simp only [ivPoints]
    split_ifs <;> norm_num

lemma volPoints_nonneg (v : ℚ) : 0 ≤ volPoints v := by
  simp only [volPoints]
  split_ifs <;> norm_num

lemma deltaPoints_ge {nd : ℚ} (h : -100 < nd) : 3 / 10 ≤ deltaPoints nd := by
  simp only [deltaPoints]
  split_ifs with h1 h2 <;> norm_num

/-!
## The claims
-/

/-- C3: for every real value and every sorted 8-anchor ladder,
`_to_percentile` is total and returns a value in [0, 100]; the
no-bracketing-pair fall-through of the source returns the neutral 50
instead of raising (it is the final `return 50` of `scanRefs`/`pctCore`,
and the Lean embedding is a total function, so no input raises). -/
theorem C3_percentile_total_and_in_range (v : ℚ) (ladder : List ℚ)
    (h8 : ladder.length = 8) (hs : ladder.Sorted (· ≤ ·)) :
    0 ≤ toPercentile v ladder ∧ toPercentile v ladder ≤ 100 :=
  toPercentile_range v ladder

/-- Witness for C3 at a concrete value and ladder. -/
theorem C3_percentile_total_and_in_range_witness :
    (([0, 1, 2, 3, 4, 5, 6, 7] : List ℚ).length = 8 ∧
      ([0, 1, 2, 3, 4, 5, 6, 7] : List ℚ).Sorted (· ≤ ·)) ∧
    0 ≤ toPercentile (7/2) [0, 1, 2, 3, 4, 5, 6, 7] ∧
      toPercentile (7/2) [0, 1, 2, 3, 4, 5, 6, 7] ≤ 100 :=
  ⟨⟨rfl, by decide⟩,
    C3_percentile_total_and_in_range (7/2) [0, 1, 2, 3, 4, 5, 6, 7] rfl (by decide)⟩

/-- C5: for every sorted ladder the percentile mapping is monotone
non-decreasing in its value argument. -/
theorem C5_percentile_monotone (ladder : List ℚ) (hs : ladder.Sorted (· ≤ ·))
    (a b : ℚ) (hab : a ≤ b) :
    toPercentile a ladder ≤ toPercentile b ladder :=
  toPercentile_mono ladder hab

/-- Witness for C5 at a concrete pair of values and ladder. -/
theorem C5_percentile_monotone_witness :
    ([0, 1, 2, 3, 4, 5, 6, 7] : List ℚ).Sorted (· ≤ ·) ∧ (1 : ℚ) ≤ 2 ∧
    toPercentile 1 [0, 1, 2, 3, 4, 5, 6, 7] ≤ toPercentile 2 [0, 1, 2, 3, 4, 5, 6, 7] :=
  ⟨by decide, by norm_num,
    C5_percentile_monotone [0, 1, 2, 3, 4, 5, 6, 7] (by decide) 1 2 (by norm_num)⟩

/-- C8: empty `financials`, `short_interest` and `growth_metrics` dicts
give exactly the neutral 5.0 for their factors, and absent or empty
options data gives exactly 0.0; all these paths are early returns, so no
error is raised (the embedding is total by construction). -/
theorem C8_neutral_defaults :
    calculateFundamentalQualityScore [] = 5 ∧
    calculateShortInterestScore [] = 5 ∧
    calculateGrowthScore [] = 5 ∧
    calculateOptionsScore none = 0 ∧
    calculateOptionsScore (some []) = 0 :=
  ⟨rfl, rfl, rfl, rfl, rfl⟩

/-- C1 (code bug): the nine configured weights do sum to 1.0, but for a
bundle that passes validation `analyze_stock` never returns the claimed
weighted sum: the `scores` dict already contains `options_score` when the
composite is computed, `self.weights` has no such key, and the lookup
raises `KeyError` (modelled by `none`), so no result is returned at all. -/
theorem C1_composite_keyerror :
    (weightsConfig.map Prod.snd).sum = 1 ∧
    validateData sampleBundle = true ∧
    analyzeStock sampleBundle = none := by
  have hv : validateData sampleBundle = true := by
    unfold validateData sampleBundle
    rw [List.length_replicate]
    rfl
  exact ⟨by norm_num [weightsConfig], hv, analyzeStock_valid_none sampleBundle hv⟩

/-- C2 (code bug): in the batch scenario of the claim — three symbols, the
second with an empty historical series — `analyze_batch` completes but
returns 0 entries, not 2: every validated symbol dies in the composite
`KeyError` of C1 and is skipped by the blanket `except`. -/
theorem C2_batch_loses_all_symbols :
    emptyHistBundle.historical = [] ∧
    validateData sampleBundle = true ∧
    validateData sampleBundle2 = true ∧
    analyzeBatch [sampleBundle, emptyHistBundle, sampleBundle2] = [] := by
  have hv1 : validateData sampleBundle = true := by
    unfold validateData sampleBundle
    rw [List.length_replicate]
    rfl
  have hv2 : validateData sampleBundle2 = true := by
    unfold validateData sampleBundle2 sampleBundle
    rw [List.length_replicate]
    rfl
  have h1 : analyzeStock sampleBundle = none := analyzeStock_valid_none _ hv1
  have h2 : analyzeStock emptyHistBundle = none := by
    unfold analyzeStock
    have hv : validateData emptyHistBundle = false := rfl
    simp [hv]
  have h3 : analyzeStock sampleBundle2 = none := analyzeStock_valid_none _ hv2
  refine ⟨rfl, hv1, hv2, ?_⟩
  unfold analyzeBatch
  simp only [List.filterMap_cons, h1, h2, h3, Option.map_none', List.filterMap_nil]
  rfl

/-- C9: in the catalyst factor, a near-earnings date (±3 days) floors the
pre-clip sentiment at 70, a major-positive keyword match adds 15 capped at
100, a major-negative match caps the pre-clip score at 30, and since the
negative cap is applied last, a major-negative match bounds the returned
catalyst score by 3.0 regardless of the other two adjustments. -/
theorem C9_catalyst_adjustments :
    (∀ (s : ℚ) (p : Profile) (d : ℤ), p.nextEarningsInDays = some d → d.natAbs ≤ 3 →
      70 ≤ earningsAdjust p s) ∧
    (∀ (s : ℚ) (news : List Article), checkMajorNews news majorPositiveKeywords = true →
      prAdjust news s = min (s + 15) 100) ∧
    (∀ (s : ℚ) (news : List Article), checkMajorNews news majorNegativeKeywords = true →
      negAdjust news s ≤ 30) ∧
    (∀ (news : List Article) (p : Profile), checkMajorNews news majorNegativeKeywords = true →
      calculateCatalystScore news p ≤ 3) := by
  have hneg : ∀ (s : ℚ) (news : List Article),
      checkMajorNews news majorNegativeKeywords = true → negAdjust news s ≤ 30 := by
    intro s news hn
    unfold negAdjust
    rw [if_pos hn]
    exact min_le_right s 30
  refine ⟨?_, ?_, hneg, ?_⟩
  · intro s p d hd habs
    unfold earningsAdjust
    rw [hd]
    show 70 ≤ if d.natAbs ≤ 3 then max s 70 else s
    rw [if_pos habs]
    exact le_max_right s 70
  · intro s news hp
    unfold prAdjust
    rw [if_pos hp]
  · intro news p hn
    unfold calculateCatalystScore npClip
    have h30 := hneg (prAdjust news (earningsAdjust p (calculateNewsSentiment news))) news hn
    have h3 : negAdjust news (prAdjust news (earningsAdjust p (calculateNewsSentiment news))) / 10 ≤ 3 := by
      linarith
    calc min (max (negAdjust news (prAdjust news (earningsAdjust p (calculateNewsSentiment news))) / 10) 0) 10
        ≤ max (negAdjust news (prAdjust news (earningsAdjust p (calculateNewsSentiment news))) / 10) 0 :=
          min_le_left _ _
      _ ≤ 3 := max_le h3 (by norm_num)

/-- Witness for C9: concrete near-earnings profile, a major-positive
article and a major-negative article. -/
theorem C9_catalyst_adjustments_witness :
    ((⟨none, some 2⟩ : Profile).nextEarningsInDays = some 2 ∧ (2 : ℤ).natAbs ≤ 3 ∧
      70 ≤ earningsAdjust ⟨none, some 2⟩ 0) ∧
    (checkMajorNews [⟨"FDA approval granted", "details"⟩] majorPositiveKeywords = true ∧
      prAdjust [⟨"FDA approval granted", "details"⟩] 50 = min (50 + 15) 100) ∧
    (checkMajorNews [⟨"Chapter 11 bankruptcy filing", ""⟩] majorNegativeKeywords = true ∧
      negAdjust [⟨"Chapter 11 bankruptcy filing", ""⟩] 90 ≤ 30 ∧
      calculateCatalystScore [⟨"Chapter 11 bankruptcy filing", ""⟩] ⟨none, some 1⟩ ≤ 3) := by
  have hpos : checkMajorNews [⟨"FDA approval granted", "details"⟩] majorPositiveKeywords = true := by
    decide
  have hneg : checkMajorNews [⟨"Chapter 11 bankruptcy filing", ""⟩] majorNegativeKeywords = true := by
    decide
  exact ⟨⟨rfl, by decide, C9_catalyst_adjustments.1 0 ⟨none, some 2⟩ 2 rfl (by decide)⟩,
    ⟨hpos, C9_catalyst_adjustments.2.1 50 _ hpos⟩,
    ⟨hneg, C9_catalyst_adjustments.2.2.1 90 _ hneg,
      C9_catalyst_adjustments.2.2.2 _ ⟨none, some 1⟩ hneg⟩⟩

/-- C10 counterexample: a non-empty options dict whose only entry is a
deeply negative `net_delta` earns no tier points at all, so the options
score is exactly 0.0 even though options data is present. -/
theorem C10_counterexample :
    ([(("net_delta" : String), (-200 : ℚ))] ≠ []) ∧
    calculateOptionsScore (some [("net_delta", -200)]) = 0 := by
  refine ⟨by simp, ?_⟩
  show (if ([(("net_delta" : String), (-200 : ℚ))]).isEmpty then (0 : ℚ)
    else min (pcrPoints ([(("net_delta" : String), (-200 : ℚ))].lookup ("put_call_ratio")) +
      ivPoints ([(("net_delta" : String), (-200 : ℚ))].lookup ("atm_implied_volatility")) +
      volPoints (dictGet [("net_delta", -200)] ("total_call_volume") 0 +
        dictGet [("net_delta", -200)] ("total_put_volume") 0) +
      deltaPoints (dictGet [("net_delta", -200)] ("net_delta") 0)) 10) = 0
  rw [if_neg (by simp),
    show ([(("net_delta" : String), (-200 : ℚ))].lookup ("put_call_ratio")) = none from rfl,
    show ([(("net_delta" : String), (-200 : ℚ))].lookup ("atm_implied_volatility")) = none from rfl,
    show dictGet [("net_delta", -200)] ("total_call_volume") 0 = 0 from rfl,
    show dictGet [("net_delta", -200)] ("total_put_volume") 0 = 0 from rfl,
    show dictGet [("net_delta", -200)] ("net_delta") 0 = -200 from rfl]
  norm_num [pcrPoints, ivPoints, volPoints, deltaPoints, min_def]

/-- C10 amended: for a non-empty options dict, the score is at least 0.3
whenever the `net_delta` value (defaulted to 0 when the field is missing,
which is what makes the missing-field case earn 0.3) is above −100; a
dict carrying `net_delta ≤ −100` can still score exactly 0.0, so 0.0 does
not characterise absent/empty options data. -/
theorem C10_amended_lower_bound (l : List (String × ℚ)) (hne : l ≠ [])
    (hnd : -100 < dictGet l ("net_delta") 0) :
    3 / 10 ≤ calculateOptionsScore (some l) := by
  simp only [calculateOptionsScore]
  rw [if_neg (by simpa using hne)]
  refine le_min ?_ (by norm_num)
  have h1 := pcrPoints_nonneg (l.lookup ("put_call_ratio"))
  have h2 := ivPoints_nonneg (l.lookup ("atm_implied_volatility"))
  have h3 := volPoints_nonneg (dictGet l ("total_call_volume") 0 + dictGet l ("total_put_volume") 0)
  have h4 := deltaPoints_ge hnd
  linarith

/-- Witness for C10 amended: options data with only a volume field. -/
theorem C10_amended_lower_bound_witness :
    ([(("total_call_volume" : String), (500 : ℚ))] ≠ []) ∧
    (-100 : ℚ) < dictGet [("total_call_volume", 500)] ("net_delta") 0 ∧
    3 / 10 ≤ calculateOptionsScore (some [("total_call_volume", 500)]) := by
  have hnd : (-100 : ℚ) < dictGet [("total_call_volume", 500)] ("net_delta") 0 := by
    rw [show dictGet [("total_call_volume", 500)] ("net_delta") 0 = 0 from rfl]
    norm_num
  exact ⟨by simp, hnd, C10_amended_lower_bound _ (by simp) hnd⟩

/-- C4 counterexample: on ladders that are merely sorted (duplicates
allowed) both boundary identities of the claim fail — on the constant
8-anchor ladder the last anchor maps to 0, not 100, and on `[0,10,10,30]`
the interior anchor `ladder[2] = 10` maps to 100/3, not the claimed
`2/(4-1)*100`. -/
theorem C4_counterexample :
    (([5, 5, 5, 5, 5, 5, 5, 5] : List ℚ).Sorted (· ≤ ·) ∧
      toPercentile 5 [5, 5, 5, 5, 5, 5, 5, 5] = 0) ∧
    (([0, 10, 10, 30] : List ℚ).Sorted (· ≤ ·) ∧
      toPercentile 10 [0, 10, 10, 30] = 100 / 3 ∧
      (100 / 3 : ℚ) ≠ (2 : ℚ) / (4 - 1) * 100) := by
  refine ⟨⟨by decide, ?_⟩, ⟨by decide, ?_, by norm_num⟩⟩
  · norm_num [toPercentile, pctCore, pySorted, List.insertionSort, List.orderedInsert]
  · norm_num [toPercentile, pctCore, pySorted, scanRefs, interpPair,
      List.insertionSort, List.orderedInsert]

/-- C4 (amended): for STRICTLY increasing ladders of at least 2 anchors,
the first anchor maps to 0, the last to 100, and every anchor `ladder[k]`
maps to its exact percentile position `k/(n-1)*100`.  (On ladders with
duplicated anchors the scan stops at the first bracketing pair, so a
duplicated anchor maps to the position of its first occurrence, and on a
constant ladder the last anchor takes the `value <= ladder[0]` branch.) -/
theorem C4_amended_anchor_positions (l : List ℚ) (hs : l.Sorted (· < ·))
    (h2 : 2 ≤ l.length) :
    toPercentile (l.getD 0 0) l = 0 ∧
    toPercentile (l.getD (l.length - 1) 0) l = 100 ∧
    ∀ k, k < l.length → toPercentile (l.getD k 0) l =
      (k : ℚ) / ((l.length : ℚ) - 1) * 100 := by
  have hsle : l.Sorted (· ≤ ·) := hs.imp (fun h => le_of_lt h)
  have hsort : pySorted l = l := hsle.insertionSort_eq
  have hget : ∀ k, k < l.length → toPercentile (l.getD k 0) l =
      (k : ℚ) / ((l.length : ℚ) - 1) * 100 := by
    intro k hk
    unfold toPercentile
    rw [hsort]
    exact pctCore_get_strict l hs h2 k hk
  have hn1 : ((l.length : ℚ) - 1) ≠ 0 := by
    have h2' : (2 : ℚ) ≤ (l.length : ℚ) := by exact_mod_cast h2
    intro h
    have h1 := sub_eq_zero.mp h
    linarith
  refine ⟨?_, ?_, hget⟩
  · rw [hget 0 (by omega)]
    norm_num
  · rw [hget (l.length - 1) (by omega)]
    have h1 : 1 ≤ l.length := by omega
    rw [Nat.cast_sub h1]
    rw [Nat.cast_one, div_self hn1, one_mul]

/-- Witness for C4 amended at the claim's own example ladder. -/
theorem C4_amended_anchor_positions_witness :
    (([0, 10, 20, 30] : List ℚ).Sorted (· < ·) ∧ 2 ≤ ([0, 10, 20, 30] : List ℚ).length) ∧
    toPercentile 10 [0, 10, 20, 30] = 100 / 3 := by
  have h := C4_amended_anchor_positions [0, 10, 20, 30] (by decide) (by norm_num)
  have h1 := h.2.2 1 (by norm_num)
  refine ⟨⟨by decide, by norm_num⟩, ?_⟩
  rw [show ([0, 10, 20, 30] : List ℚ).getD 1 0 = 10 from rfl] at h1
  rw [h1]
  norm_num

/-- C6 counterexample: a finite OHLCV input whose trailing 20-bar volumes
are all zero makes the unguarded VWAP division produce NaN (`none`), so
not every indicator division is guarded. -/
theorem C6_counterexample :
    calcVwap (List.replicate 20 1) (List.replicate 20 1) (List.replicate 20 1)
      (List.replicate 20 0) = none := by
  apply calcVwap_zero_volume
  simp [lastN, List.sum_replicate]

/-- C6 (amended): the RSI average-loss guard and the Bollinger zero-mean
guard do hold — every RSI output lies in [0,100] (the zero-loss branch
returns 100) and a window with non-positive mean short-circuits the
Bollinger width to 0 — but the VWAP volume-sum division is NOT guarded:
whenever the trailing volume sum is zero it produces NaN/inf (`none`)
instead of a well-defined constant. -/
theorem C6_amended_division_guards :
    (∀ (closes : List ℚ) (period : ℕ), 1 ≤ period →
      ∀ r ∈ calcRsi closes period, 0 ≤ r ∧ r ≤ 100) ∧
    (∀ (w : List ℚ) (ns : ℚ), ¬ 0 < npMean w → bbWidthEntry w ns = 0) ∧
    (∀ highs lows closes volumes : List ℚ,
      (lastN (min 20 closes.length) volumes).sum = 0 →
      calcVwap highs lows closes volumes = none) :=
  ⟨fun c p hp => calcRsi_mem_range c p hp,
    fun w ns h => bbWidthEntry_nonpos_mean w ns h,
    fun h l c v hz => calcVwap_zero_volume h l c v hz⟩

/-- Witness for C6 amended at concrete inputs for each conjunct. -/
theorem C6_amended_division_guards_witness :
    ((1 : ℕ) ≤ 2 ∧ (50 : ℚ) ∈ calcRsi [1, 2, 3] 2 ∧
      (0 ≤ (50 : ℚ) ∧ (50 : ℚ) ≤ 100)) ∧
    (¬ (0 : ℚ) < npMean [0, 0, 0] ∧ bbWidthEntry [0, 0, 0] 2 = 0) ∧
    ((lastN (min 20 ([1, 1, 1] : List ℚ).length) (List.replicate 3 0)).sum = 0 ∧
      calcVwap [1, 1, 1] [1, 1, 1] [1, 1, 1] (List.replicate 3 0) = none) := by
  have hmem : (50 : ℚ) ∈ calcRsi [1, 2, 3] 2 := by decide
  have hmean : ¬ (0 : ℚ) < npMean [0, 0, 0] := by norm_num [npMean]
  have hsum : (lastN (min 20 ([1, 1, 1] : List ℚ).length) (List.replicate 3 0)).sum = 0 := by
    simp [lastN, List.sum_replicate]
  exact ⟨⟨by norm_num, hmem, C6_amended_division_guards.1 [1, 2, 3] 2 (by norm_num) 50 hmem⟩,
    ⟨hmean, C6_amended_division_guards.2.1 [0, 0, 0] 2 hmean⟩,
    ⟨hsum, C6_amended_division_guards.2.2 [1, 1, 1] [1, 1, 1] [1, 1, 1]
      (List.replicate 3 0) hsum⟩⟩

/-- C7 counterexample: all three bullish conditions of the claim hold with
the window's price low in the FIRST half (window index 2 < 5), yet the
detector returns 50, because the source requires `price_low_idx > 5`,
i.e. a low in the second half of the 10-bar window. -/
theorem C7_counterexample :
    (argmin (lastN 10 c7Closes) < 5 ∧
      (lastN 10 c7Closes).getD (argmin (lastN 10 c7Closes)) 0 < (lastN 10 c7Closes).getD 9 0 ∧
      (lastN 10 c7Rsi).getD (argmin (lastN 10 c7Rsi)) 0 < (lastN 10 c7Rsi).getD 9 0) ∧
    detectRsiDivergence c7Closes c7Rsi = 50 := by decide

/-- C7 (amended): given at least 20 bars of closes and RSI, the detector
returns 100 exactly when the latest close exceeds the close at the
window's price low, the latest RSI exceeds the RSI at the window's RSI
low, and the price low sits in the SECOND half of the 10-bar window
(first index of the window minimum above 5); the mirror condition on
highs (checked only when the bullish one fails) returns 0, and otherwise
the result is 50. -/
theorem C7_amended_divergence (closes rsi : List ℚ) (hc : 20 ≤ closes.length)
    (hr : 20 ≤ rsi.length) :
    (detectRsiDivergence closes rsi = 100 ↔
      (5 < argmin (lastN 10 closes) ∧
        (lastN 10 closes).getD (argmin (lastN 10 closes)) 0 < (lastN 10 closes).getD 9 0 ∧
        (lastN 10 rsi).getD (argmin (lastN 10 rsi)) 0 < (lastN 10 rsi).getD 9 0)) ∧
    (detectRsiDivergence closes rsi = 0 ↔
      (¬ (5 < argmin (lastN 10 closes) ∧
          (lastN 10 closes).getD (argmin (lastN 10 closes)) 0 < (lastN 10 closes).getD 9 0 ∧
          (lastN 10 rsi).getD (argmin (lastN 10 rsi)) 0 < (lastN 10 rsi).getD 9 0) ∧
        (5 < argmax (lastN 10 closes) ∧
          (lastN 10 closes).getD 9 0 < (lastN 10 closes).getD (argmax (lastN 10 closes)) 0 ∧
          (lastN 10 rsi).getD 9 0 < (lastN 10 rsi).getD (argmax (lastN 10 rsi)) 0))) ∧
    ((¬ (5 < argmin (lastN 10 closes) ∧
          (lastN 10 closes).getD (argmin (lastN 10 closes)) 0 < (lastN 10 closes).getD 9 0 ∧
          (lastN 10 rsi).getD (argmin (lastN 10 rsi)) 0 < (lastN 10 rsi).getD 9 0) ∧
      ¬ (5 < argmax (lastN 10 closes) ∧
          (lastN 10 closes).getD 9 0 < (lastN 10 closes).getD (argmax (lastN 10 closes)) 0 ∧
          (lastN 10 rsi).getD 9 0 < (lastN 10 rsi).getD (argmax (lastN 10 rsi)) 0)) →
      detectRsiDivergence closes rsi = 50) := by
  have hg : ¬ (closes.length < 20 ∨ rsi.length < 20) := by omega
  have hcl : (lastN 10 closes).length = 10 := by simp [lastN]; omega
  have hrl : (lastN 10 rsi).length = 10 := by simp [lastN]; omega
  simp only [detectRsiDivergence]
  rw [if_neg hg, hcl, hrl]
  rw [show (10 : ℕ) - 1 = 9 from rfl]
  by_cases hA : 5 < argmin (lastN 10 closes) ∧
      (lastN 10 closes).getD (argmin (lastN 10 closes)) 0 < (lastN 10 closes).getD 9 0 ∧
      (lastN 10 rsi).getD (argmin (lastN 10 rsi)) 0 < (lastN 10 rsi).getD 9 0
  · rw [if_pos hA]
    refine ⟨⟨fun _ => hA, fun _ => rfl⟩, iff_of_false (by norm_num) (fun h => h.1 hA), ?_⟩
    rintro ⟨hnA, -⟩
    exact absurd hA hnA
  · rw [if_neg hA]
    by_cases hB : 5 < argmax (lastN 10 closes) ∧
        (lastN 10 closes).getD 9 0 < (lastN 10 closes).getD (argmax (lastN 10 closes)) 0 ∧
        (lastN 10 rsi).getD 9 0 < (lastN 10 rsi).getD (argmax (lastN 10 rsi)) 0
    · rw [if_pos hB]
      refine ⟨iff_of_false (by norm_num) hA, ⟨fun _ => ⟨hA, hB⟩, fun _ => rfl⟩, ?_⟩
      rintro ⟨-, hnB⟩
      exact absurd hB hnB
    · rw [if_neg hB]
      exact ⟨iff_of_false (by norm_num) hA,
        iff_of_false (by norm_num) (fun h => hB h.2), fun _ => rfl⟩

/-- Witness for C7 amended at a concrete 20-bar input. -/
theorem C7_amended_divergence_witness :
    20 ≤ c7Closes.length ∧ 20 ≤ c7Rsi.length ∧
    (detectRsiDivergence c7Closes c7Rsi = 100 ↔
      (5 < argmin (lastN 10 c7Closes) ∧
        (lastN 10 c7Closes).getD (argmin (lastN 10 c7Closes)) 0 < (lastN 10 c7Closes).getD 9 0 ∧
        (lastN 10 c7Rsi).getD (argmin (lastN 10 c7Rsi)) 0 < (lastN 10 c7Rsi).getD 9 0)) :=
  ⟨by decide, by decide,
    (C7_amended_divergence c7Closes c7Rsi (by decide) (by decide)).1⟩
